import Mathlib

/-!
Verification of the timeline/segment core of the `figure-labeler` video
annotation tool (source: `src/labeler.py`).

The Python source is shallowly embedded: pure numeric code becomes Lean
functions over `Nat`/`Int`, Python strings become `List Char`, Python
`float` arithmetic is modelled by exact rational arithmetic (`ℚ`), and
Python dictionaries become association lists.  Stateful widget methods
become explicit state-passing functions that also return the list of Qt
signals they would emit.
-/

namespace Labeler

/-! ## Characters and digit strings -/

/-- Whitespace as recognised by Python `str.strip()` (ASCII part). -/
def isSpace (c : Char) : Bool :=
  c = ' ' || c = '\t' || c = '\n' || c = '\r' || c = '\x0b' || c = '\x0c'

/-- Numeric value of a decimal digit character. -/
def digitToNat (c : Char) : Nat := c.toNat - 48

/-- The decimal digit character for `n < 10`. -/
def digitChar (n : Nat) : Char := Char.ofNat (48 + n)

/-- Fuel-driven helper for `renderNat`; the fuel (at least `n + 1`)
strictly bounds the recursion depth, keeping the recursion structural so
that the kernel can evaluate it. -/
def renderNatAux : Nat → Nat → List Char
  | 0, _ => []
  | fuel + 1, n =>
    if n < 10 then [digitChar n]
    else renderNatAux fuel (n / 10) ++ [digitChar (n % 10)]

/-- Decimal rendering of a natural number, as Python `str`/`%d` renders it
(no sign, no padding, most significant digit first). -/
def renderNat (n : Nat) : List Char := renderNatAux (n + 1) n

/-- Value of a decimal digit string (already validated), accumulator style;
models Python `int` applied to a string of digits. -/
def parseDigits : Nat → List Char → Nat
  | acc, [] => acc
  | acc, c :: cs => parseDigits (acc * 10 + digitToNat c) cs

/-- Left-pad with `'0'` to width `w`; models Python's `{:0wd}` formatting. -/
def pad (w : Nat) (s : List Char) : List Char :=
  List.replicate (w - s.length) '0' ++ s

/-- Python `str.strip()`: drop whitespace from both ends. -/
def pystrip (s : List Char) : List Char :=
  ((s.dropWhile isSpace).reverse.dropWhile isSpace).reverse

/-- Helper for `splitOn` carrying the (reversed) current field. -/
def splitOnAux (sep : Char) : List Char → List Char → List (List Char)
  | [], acc => [acc.reverse]
  | c :: cs, acc =>
    if c = sep then acc.reverse :: splitOnAux sep cs []
    else splitOnAux sep cs (c :: acc)

/-- Python `str.split(sep)` for a one-character separator. -/
def splitOn (sep : Char) (s : List Char) : List (List Char) :=
  splitOnAux sep s []

/-- Python `int(str)` on a stripped string: optional sign followed by a
nonempty run of decimal digits; `none` models the `ValueError` raised on
any other input. -/
def pyInt (s : List Char) : Option Int :=
  match pystrip s with
  | [] => none
  | c :: rest =>
    if c = '-' then
      if rest ≠ [] ∧ rest.all Char.isDigit then some (-(parseDigits 0 rest : Int)) else none
    else if c = '+' then
      if rest ≠ [] ∧ rest.all Char.isDigit then some ((parseDigits 0 rest : Int)) else none
    else if (c :: rest).all Char.isDigit then some ((parseDigits 0 (c :: rest) : Int)) else none

/-- Leftmost match of the regular expression `\d+(?:[.,]\d+)?` in a string:
returns the digits of the integer part and the digits of the (possibly
empty) fractional part, as `re.search` finds them in the source. -/
def searchNumber : List Char → Option (List Char × List Char)
  | [] => none
  | c :: cs =>
    if c.isDigit then
      let ip := (c :: cs).takeWhile Char.isDigit
      let rest := (c :: cs).dropWhile Char.isDigit
      match rest with
      | d :: ds =>
        if (d = '.' || d = ',') && (ds.takeWhile Char.isDigit ≠ []) then
          some (ip, ds.takeWhile Char.isDigit)
        else some (ip, [])
      | [] => some (ip, [])
    else searchNumber cs

/-- Python `round` (round half to even) of the fraction `num / den`,
`den > 0`; used with exact arithmetic in place of the source's `float`. -/
def roundHalfEven (num : Int) (den : Nat) : Int :=
  let q := num / (den : Int)
  let r := num % (den : Int)
  if 2 * r < (den : Int) then q
  else if (den : Int) < 2 * r then q + 1
  else if q % 2 = 0 then q else q + 1

/-! ## IEEE binary64 arithmetic

The source computes the seconds value of `time_string_to_ms` in Python
`float` (IEEE binary64).  A double is represented here as an exact value
`mantissa * 2^exponent` with `|mantissa| ∈ [2^52, 2^53)` (or 0); every
operation computes the exact rational result and applies one
round-to-nearest, ties-to-even rounding, which is the IEEE behaviour.
The exponent is unbounded (no overflow/underflow/subnormals), faithful
for the magnitudes any time string produces; the normalization loops are
fuel-driven with fuel 5000, which covers far more than the binary64
exponent range. -/

/-- Scale the positive fraction `(p / q) * 2^e` by powers of two until the
integer quotient `p / q` lands in `[2^52, 2^53)`. -/
def fscale : Nat → Nat → Nat → Int → Nat × Nat × Int
  | 0, p, q, e => (p, q, e)
  | fuel + 1, p, q, e =>
    if p < q * 2 ^ 52 then fscale fuel (p * 2) q (e - 1)
    else if q * 2 ^ 53 ≤ p then fscale fuel p (q * 2) (e + 1)
    else (p, q, e)

/-- Round the non-negative rational `(p / q) * 2^e` to the nearest binary64
value (round half to even), as mantissa and exponent. -/
def floatPos (p q : Nat) (e : Int) : Nat × Int :=
  if p = 0 then (0, 0)
  else
    let s := fscale 5000 p q e
    let m0 := s.1 / s.2.1
    let r := s.1 % s.2.1
    let m := if 2 * r < s.2.1 then m0
             else if s.2.1 < 2 * r then m0 + 1
             else if m0 % 2 = 0 then m0 else m0 + 1
    if m = 2 ^ 53 then (2 ^ 52, s.2.2 + 1) else (m, s.2.2)

/-- Signed correctly rounded conversion of `(p / q) * 2^e` to a double. -/
def floatOfRat (p : Int) (q : Nat) (e : Int) : Int × Int :=
  if 0 ≤ p then
    let f := floatPos p.toNat q e
    ((f.1 : Int), f.2)
  else
    let f := floatPos (-p).toNat q e
    (-(f.1 : Int), f.2)

/-- Conversion of a Python int to a double (one rounding), as CPython does
before mixed int/float arithmetic. -/
def floatOfInt (n : Int) : Int × Int := floatOfRat n 1 0

/-- IEEE addition: exact dyadic sum, then one rounding. -/
def fadd (x y : Int × Int) : Int × Int :=
  let e := min x.2 y.2
  floatOfRat (x.1 * 2 ^ (x.2 - e).toNat + y.1 * 2 ^ (y.2 - e).toNat) 1 e

/-- IEEE multiplication: exact product, then one rounding. -/
def fmul (x y : Int × Int) : Int × Int :=
  floatOfRat (x.1 * y.1) 1 (x.2 + y.2)

/-- Python `round` applied to a double (an exact dyadic value): round half
to even to an integer. -/
def froundToInt (x : Int × Int) : Int :=
  if 0 ≤ x.2 then x.1 * 2 ^ x.2.toNat else roundHalfEven x.1 (2 ^ (-x.2).toNat)

/-! ## TimeCode: `VideoAnnotator.ms_to_time_string` / `time_string_to_ms` -/

/-- Model of `VideoAnnotator.ms_to_time_string` (labeler.py:920-927): format a
non-negative millisecond count as `HH:MM:SS.mmm`, fields zero-padded,
hours unbounded. -/
def ms_to_time_string (ms : Nat) : List Char :=
  let hours := ms / 3600000
  let minutes := (ms % 3600000) / 60000
  let seconds := (ms % 60000) / 1000
  let msr := ms % 1000
  pad 2 (renderNat hours) ++ ':' :: pad 2 (renderNat minutes) ++ ':' ::
    pad 2 (renderNat seconds) ++ '.' :: pad 3 (renderNat msr)

/-- Model of `VideoAnnotator.time_string_to_ms` (labeler.py:931-959): split on `':'`
into hour/minute/second fields (3, 2 or any other number of fields), read
the hour and minute fields with Python `int` (a `ValueError` is caught by
the surrounding `try` and yields 0), extract the seconds value with the
regex `\d+(?:[.,]\d+)?`, and round the total to milliseconds.  The
source's `float` seconds value is modelled exactly (integer part plus
fraction digits over a power of ten). -/
def time_string_to_ms (s : List Char) : Int :=
  let t := pystrip s
  if t = [] then 0
  else
    let parts := splitOn ':' t
    let hm : Option (Int × Int × List Char) :=
      match parts with
      | [p0, p1, p2] =>
        match pyInt p0, pyInt p1 with
        | some h, some m => some (h, m, p2)
        | _, _ => none
      | [p0, p1] =>
        match pyInt p0 with
        | some m => some (0, m, p1)
        | none => none
      | p0 :: _ => some (0, 0, p0)
      | [] => some (0, 0, [])
    match hm with
    | none => 0
    | some (h, m, secStr) =>
      let ipfrac : List Char × List Char :=
        match searchNumber secStr with
        | some p => p
        | none => ([], [])
      let k := ipfrac.2.length
      let A : Int := h * 3600 + m * 60 + (parseDigits 0 ipfrac.1 : Int)
      roundHalfEven (A * (10 : Int) ^ k * 1000 + (parseDigits 0 ipfrac.2 : Int) * 1000) (10 ^ k)

/-- Model of `VideoAnnotator.time_string_to_ms` (labeler.py:931-959) with
the source's IEEE binary64 arithmetic made explicit: `float(sec_str)` is
the correctly rounded double of the matched decimal, and
`(hours * 3600 + minutes * 60 + seconds) * 1000` converts the exact
integer part to a double, adds the seconds double, and multiplies by
1000.0, each with one binary64 rounding, before Python `round`.  Field
splitting and `ValueError` handling are identical to
`time_string_to_ms`, which uses exact arithmetic instead. -/
def time_string_to_ms_f (s : List Char) : Int :=
  let t := pystrip s
  if t = [] then 0
  else
    let parts := splitOn ':' t
    let hm : Option (Int × Int × List Char) :=
      match parts with
      | [p0, p1, p2] =>
        match pyInt p0, pyInt p1 with
        | some h, some m => some (h, m, p2)
        | _, _ => none
      | [p0, p1] =>
        match pyInt p0 with
        | some m => some (0, m, p1)
        | none => none
      | p0 :: _ => some (0, 0, p0)
      | [] => some (0, 0, [])
    match hm with
    | none => 0
    | some (h, m, secStr) =>
      let ipfrac : List Char × List Char :=
        match searchNumber secStr with
        | some p => p
        | none => ([], [])
      let k := ipfrac.2.length
      let sec := floatOfRat ((parseDigits 0 ipfrac.1 : Int) * (10 : Int) ^ k +
        (parseDigits 0 ipfrac.2 : Int)) (10 ^ k) 0
      froundToInt (fmul (fadd (floatOfInt (h * 3600 + m * 60)) sec) (floatOfInt 1000))

/-! ## Segment and the timeline store (`Segment`, `TimelineWidget`) -/

/-- Model of `Segment` (labeler.py:16-27): a labeled time interval.  The Python
attribute `end` is a Lean keyword and is named `stop` here. -/
structure Segment where
  start : Int
  stop : Int
  action : String
  color : Option String
deriving DecidableEq, Repr

/-- Model of `Segment.overlaps_with` (labeler.py:23-24):
`not (self.end <= other.start or other.end <= self.start)`. -/
def overlaps_with (a b : Segment) : Bool :=
  !(decide (a.stop ≤ b.start) || decide (b.stop ≤ a.start))

/-- Model of `Segment.contains` (labeler.py:26-27): `self.start <= position <= self.end`,
at the rational (float-valued) position used by hit-testing. -/
def Segment.containsQ (a : Segment) (position : ℚ) : Bool :=
  decide ((a.start : ℚ) ≤ position) && decide (position ≤ (a.stop : ℚ))

/-- Model of `TimelineWidget.add_segment` (labeler.py:85-94): build the candidate,
return `false` leaving the list untouched if it overlaps any existing
segment, else append it and return `true`. -/
def add_segment (segs : List Segment) (start stop : Int) (action : String)
    (color : Option String) : List Segment × Bool :=
  let new_segment : Segment := ⟨start, stop, action, color⟩
  if segs.any (fun s => overlaps_with new_segment s) then (segs, false)
  else (segs ++ [new_segment], true)

/-- Model of `TimelineWidget.remove_segment` (labeler.py:96-103): no-op when the
index is out of bounds; otherwise delete the segment and fix up
`selected_segment` (clear it if it was the removed index, decrement it if
it was greater). -/
def remove_segment (segs : List Segment) (sel : Option Int) (index : Int) :
    List Segment × Option Int :=
  if 0 ≤ index ∧ index < (segs.length : Int) then
    let segs' := segs.eraseIdx index.toNat
    let sel' :=
      match sel with
      | none => none
      | some s => if s = index then none else if index < s then some (s - 1) else some s
    (segs', sel')
  else (segs, sel)

/-- Qt signals emitted by `TimelineWidget` handlers. -/
inductive TimelineEvent where
  | positionChanged (pos : Int)
  | segmentClicked (index : Int)
  | selectionCleared
deriving DecidableEq, Repr

/-- Model of `TimelineWidget` state used by the embedded handlers; `float` fields
(pixel positions, `PX_PER_SEC`) are modelled by `ℚ`. -/
structure TimelineState where
  duration : Int
  segments : List Segment
  selected_segment : Option Int
  scroll_offset : ℚ
  px_per_sec : ℚ
  dragging : Bool
  drag_start_x : ℚ
deriving DecidableEq

/-- Python `int()` applied to a `float` value: truncation toward zero. -/
def pyTrunc (q : ℚ) : Int :=
  if 0 ≤ q then ⌊q⌋ else ⌈q⌉

/-- Model of `max(400, int(self.duration / 1000 * self.PX_PER_SEC))`
(labeler.py:121, 139): total pixel width of the rendered timeline. -/
def total_width (px_per_sec : ℚ) (duration : Int) : Int :=
  max 400 (pyTrunc ((duration : ℚ) / 1000 * px_per_sec))

/-- Model of `TimelineWidget.get_segment_at_position` (labeler.py:116-126): `none`
when `duration == 0`; otherwise convert the pixel to a time position and
return the index of the first segment containing it. -/
def get_segment_at_position (px_per_sec : ℚ) (duration : Int)
    (segs : List Segment) (x : ℚ) : Option Nat :=
  if duration = 0 then none
  else
    let tw := total_width px_per_sec duration
    let position := x / (tw : ℚ) * (duration : ℚ)
    segs.findIdx? (fun s => s.containsQ position)

/-- Model of `TimelineWidget.select_segment` (labeler.py:110-114): in bounds, set the
selection and emit `segmentClicked`; out of bounds, do nothing. -/
def select_segment (st : TimelineState) (index : Int) :
    TimelineState × List TimelineEvent :=
  if 0 ≤ index ∧ index < (st.segments.length : Int) then
    ({ st with selected_segment := some index }, [TimelineEvent.segmentClicked index])
  else (st, [])

/-- Model of `TimelineWidget.mousePressEvent`, left-button branch (labeler.py:128-150):
add the scroll offset to the pixel, hit-test, start dragging, emit
`positionChanged` when `duration > 0`, then either select the hit segment
(emitting `segmentClicked`) or clear the selection (emitting
`selectionCleared`). -/
def mousePressEvent (st : TimelineState) (x0 : ℚ) :
    TimelineState × List TimelineEvent :=
  let x := x0 + st.scroll_offset
  let segIdx := get_segment_at_position st.px_per_sec st.duration st.segments x
  let st1 := { st with dragging := true, drag_start_x := x }
  let evs :=
    if 0 < st.duration then
      [TimelineEvent.positionChanged
        (pyTrunc (x / (total_width st.px_per_sec st.duration : ℚ) * (st.duration : ℚ)))]
    else []
  match segIdx with
  | some i =>
    let r := select_segment st1 (i : Int)
    (r.1, evs ++ r.2)
  | none =>
    ({ st1 with selected_segment := none }, evs ++ [TimelineEvent.selectionCleared])

/-! ## `VideoAnnotator`: colors, OUT-commit, project load, action catalog -/

/-- Model of `self.action_colors.get(key, "#FF9999")` (labeler.py:701, 743): lookup
in the action→color dictionary with the default color. -/
def lookupColor (colors : List (String × String)) (a : String) : String :=
  match colors.find? (fun p => p.1 = a) with
  | some p => p.2
  | none => "#FF9999"

/-- Model of `VideoAnnotator.set_out`, segment-commit part (labeler.py:728-753):
with the OUT time set to the player position, do nothing further unless an
IN time is set; reject (no segment added) when `out_time <= in_time`;
otherwise try `add_segment` with the combo text and its mapped color, and
clear IN/OUT only on success.  Returns the new segment list, `in_time` and
`out_time`. -/
def set_out (segs : List Segment) (in_time : Option Int) (position : Int)
    (actionText : String) (colors : List (String × String)) :
    List Segment × Option Int × Option Int :=
  let out_time := some position
  match in_time with
  | none => (segs, in_time, out_time)
  | some it =>
    if position ≤ it then (segs, in_time, out_time)
    else
      let clean_action := String.mk (pystrip actionText.data)
      let color := lookupColor colors clean_action
      let r := add_segment segs it position actionText (some color)
      if r.2 then (r.1, none, none) else (r.1, in_time, out_time)

/-- One row's worth of `VideoAnnotator.load_project`'s loop
(labeler.py:694-703): rows with fewer than 3 fields are skipped; otherwise
the two times are parsed, the technique's color is looked up, and the
segment goes through `add_segment`. -/
def load_project_step (colors : List (String × String)) (segs : List Segment)
    (row : List String) : List Segment :=
  match row with
  | f0 :: f1 :: f2 :: _ =>
    let start_ms := time_string_to_ms f0.data
    let end_ms := time_string_to_ms f1.data
    let color := lookupColor colors f2
    (add_segment segs start_ms end_ms f2 (some color)).1
  | _ => segs

/-- Model of `VideoAnnotator.load_project` (labeler.py:683-709) on already-read CSV
rows: clear the segment list, then process each row in file order. -/
def load_project_rows (colors : List (String × String))
    (rows : List (List String)) : List Segment :=
  rows.foldl (load_project_step colors) []

/-- A data row of `actions.csv` as `csv.DictReader` delivers it: `Category`
and `Technique` are present, `Color` is optional (`row.get`). -/
structure CatalogRow where
  category : String
  technique : String
  color : Option String
deriving DecidableEq, Repr

/-- Python dict assignment `d[k] = v` on an insertion-ordered association
list. -/
def assocSet (m : List (String × String)) (k v : String) : List (String × String) :=
  if m.any (fun p => p.1 = k) then m.map (fun p => if p.1 = k then (k, v) else p)
  else m ++ [(k, v)]

/-- Combo-box items plus the action→color mapping built by
`load_actions_from_csv`. -/
structure ActionsState where
  items : List String
  action_colors : List (String × String)
deriving DecidableEq, Repr

/-- The 20-dash separator row `"─" * 20` (labeler.py:539). -/
def separatorItem : String := String.mk (List.replicate 20 '─')

/-- One iteration of the `load_actions_from_csv` reader loop
(labeler.py:527-545), threading the `current_category` variable. -/
def load_actions_step (st : ActionsState × Option String) (row : CatalogRow) :
    ActionsState × Option String :=
  let color := row.color.getD "#FF9999"
  let colors := assocSet st.1.action_colors row.technique color
  let (items1, cc1) :=
    if some row.category ≠ st.2 then
      (st.1.items ++ (if st.2 ≠ none then [separatorItem] else []) ++
        ["📁 " ++ row.category], some row.category)
    else (st.1.items, st.2)
  (⟨items1 ++ ["  " ++ row.technique], colors⟩, cc1)

/-- The fallback combo items (labeler.py:548, 559). -/
def fallbackItems : List String := ["jump", "spin", "footwork", "transition"]

/-- The fallback action colors (labeler.py:550-555, 560-565). -/
def fallbackColors : List (String × String) :=
  [("jump", "#FF9999"), ("spin", "#99FF99"), ("footwork", "#9999FF"),
   ("transition", "#FFFF99")]

/-- Model of `VideoAnnotator.load_actions_from_csv` (labeler.py:519-565).
The input is `none` when `actions.csv` does not exist (the `else` branch
adds the four built-in actions with their fixed colors to the fresh
combo), and `some (rows, ok)` when the file exists and the reader
yielded `rows` before either finishing cleanly (`ok = true`) or raising
(`ok = false`).  An exception escapes only between row mutations (the
iterator raising, or the `row['Category']`/`row['Technique']` lookups,
which precede that row's mutations), so the state at the `except`
handler is exactly the processed prefix; the handler then APPENDS the
four fallback labels to the combo items already added and REPLACES the
color mapping with the fallback colors (labeler.py:556-565). -/
def load_actions_from_csv (src : Option (List CatalogRow × Bool)) : ActionsState :=
  match src with
  | some (rows, ok) =>
    let st := (rows.foldl load_actions_step (⟨[], []⟩, none)).1
    if ok then st
    else ⟨st.items ++ fallbackItems, fallbackColors⟩
  | none => ⟨fallbackItems, fallbackColors⟩

/-! ## Character and digit-string lemmas -/

theorem isDigit_ne {c x : Char} (hc : c.isDigit = true) (hx : x.isDigit = false) :
    c ≠ x := by
  intro h
  subst h
  rw [hc] at hx
  exact Bool.noConfusion hx

theorem isSpace_of_isDigit {c : Char} (hc : c.isDigit = true) : isSpace c = false := by
  cases h : isSpace c
  · rfl
  · exfalso
    simp only [isSpace, Bool.or_eq_true, decide_eq_true_eq] at h
    rcases h with ((((h | h) | h) | h) | h) | h <;> subst h <;>
      exact absurd hc (by decide)

theorem digitChar_isDigit {d : Nat} (hd : d < 10) : (digitChar d).isDigit = true := by
  interval_cases d <;> decide

theorem digitToNat_digitChar {d : Nat} (hd : d < 10) : digitToNat (digitChar d) = d := by
  interval_cases d <;> decide

theorem renderNatAux_congr : ∀ (f1 f2 n : Nat), n < f1 → n < f2 →
    renderNatAux f1 n = renderNatAux f2 n := by
  intro f1
  induction f1 with
  | zero => intro f2 n h1 _; exact absurd h1 (Nat.not_lt_zero n)
  | succ j ih =>
    intro f2 n h1 h2
    cases f2 with
    | zero => exact absurd h2 (Nat.not_lt_zero n)
    | succ j2 =>
      simp only [renderNatAux]
      by_cases h : n < 10
      · simp [h]
      · simp only [h, if_false]
        have hlt : n / 10 < n := Nat.div_lt_self (by omega) (by omega)
        rw [ih j2 (n / 10) (by omega) (by omega)]

theorem renderNat_eq (n : Nat) :
    renderNat n = if n < 10 then [digitChar n]
      else renderNat (n / 10) ++ [digitChar (n % 10)] := by
  show renderNatAux (n + 1) n = _
  simp only [renderNatAux]
  by_cases h : n < 10
  · simp [h]
  · simp only [h, if_false]
    have hlt : n / 10 < n := Nat.div_lt_self (by omega) (by omega)
    rw [renderNatAux_congr n (n / 10 + 1) (n / 10) (by omega) (by omega)]
    rfl

theorem renderNat_all_digit (n : Nat) : (renderNat n).all Char.isDigit = true := by
  induction n using Nat.strong_induction_on with
  | _ n ih =>
    rw [renderNat_eq]
    by_cases h : n < 10
    · simp [h, digitChar_isDigit h]
    · have h10 : 10 ≤ n := Nat.le_of_not_lt h
      simp only [h, if_false, List.all_append, Bool.and_eq_true]
      exact ⟨ih (n / 10) (Nat.div_lt_self (by omega) (by omega)),
        by simp [digitChar_isDigit (Nat.mod_lt n (by omega))]⟩

theorem renderNat_ne_nil (n : Nat) : renderNat n ≠ [] := by
  rw [renderNat_eq]
  by_cases h : n < 10
  · simp [h]
  · simp only [h, if_false]
    intro heq
    have := List.append_eq_nil.mp heq
    exact List.noConfusion this.2

theorem parseDigits_nil (acc : Nat) : parseDigits acc [] = acc := rfl

theorem parseDigits_cons (acc : Nat) (c : Char) (cs : List Char) :
    parseDigits acc (c :: cs) = parseDigits (acc * 10 + digitToNat c) cs := rfl

theorem parseDigits_append (acc : Nat) (l₁ l₂ : List Char) :
    parseDigits acc (l₁ ++ l₂) = parseDigits (parseDigits acc l₁) l₂ := by
  induction l₁ generalizing acc with
  | nil => rfl
  | cons c cs ih =>
    rw [List.cons_append, parseDigits_cons, parseDigits_cons, ih]

theorem parseDigits_renderNat (acc : Nat) (n : Nat) :
    parseDigits acc (renderNat n) = acc * 10 ^ (renderNat n).length + n := by
  induction n using Nat.strong_induction_on generalizing acc with
  | _ n ih =>
    rw [renderNat_eq]
    by_cases h : n < 10
    · rw [if_pos h]
      rw [parseDigits_cons, parseDigits_nil, digitToNat_digitChar h]
      norm_num
    · rw [if_neg h]
      have h10 : 10 ≤ n := Nat.le_of_not_lt h
      rw [parseDigits_append, ih (n / 10) (Nat.div_lt_self (by omega) (by omega)) acc]
      have hd : digitToNat (digitChar (n % 10)) = n % 10 :=
        digitToNat_digitChar (Nat.mod_lt n (by omega))
      rw [parseDigits_cons, parseDigits_nil, hd]
      simp only [List.length_append, List.length_cons, List.length_nil, Nat.zero_add]
      have hmod : n / 10 * 10 + n % 10 = n := by omega
      calc (acc * 10 ^ (renderNat (n / 10)).length + n / 10) * 10 + n % 10
          = acc * (10 ^ (renderNat (n / 10)).length * 10) + (n / 10 * 10 + n % 10) := by
            ring
        _ = acc * 10 ^ ((renderNat (n / 10)).length + 1) + n := by rw [hmod, pow_succ]

theorem parseDigits_zero_renderNat (n : Nat) : parseDigits 0 (renderNat n) = n := by
  rw [parseDigits_renderNat]
  simp

theorem renderNat_length_le {n k : Nat} (hk : 0 < k) (hn : n < 10 ^ k) :
    (renderNat n).length ≤ k := by
  induction n using Nat.strong_induction_on generalizing k with
  | _ n ih =>
    rw [renderNat_eq]
    by_cases h : n < 10
    · rw [if_pos h]
      simpa using hk
    · have h10 : 10 ≤ n := Nat.le_of_not_lt h
      simp only [h, if_false, List.length_append, List.length_cons, List.length_nil]
      have hk2 : 2 ≤ k := by
        by_contra hlt
        interval_cases k <;> omega
      have hdiv : n / 10 < 10 ^ (k - 1) := by
        have : 10 ^ k = 10 ^ (k - 1) * 10 := by
          rw [← pow_succ]; congr 1; omega
        rw [this] at hn
        exact Nat.div_lt_of_lt_mul (by omega)
      have := ih (n / 10) (Nat.div_lt_self (by omega) (by omega)) (k := k - 1) (by omega) hdiv
      omega

theorem parseDigits_replicate_zero (j : Nat) (l : List Char) :
    parseDigits 0 (List.replicate j '0' ++ l) = parseDigits 0 l := by
  induction j with
  | zero => rfl
  | succ j ih =>
    rw [List.replicate_succ, List.cons_append, parseDigits_cons,
      show digitToNat '0' = 0 from by decide]
    simpa using ih

theorem parseDigits_pad (w : Nat) (l : List Char) :
    parseDigits 0 (pad w l) = parseDigits 0 l :=
  parseDigits_replicate_zero _ l

theorem pad_all_digit {l : List Char} (h : l.all Char.isDigit = true) (w : Nat) :
    (pad w l).all Char.isDigit = true := by
  simp only [pad, List.all_append, Bool.and_eq_true]
  exact ⟨by simp [List.all_eq_true], h⟩

theorem pad_ne_nil {l : List Char} (h : l ≠ []) (w : Nat) : pad w l ≠ [] := by
  simp only [pad]
  intro heq
  exact h (List.append_eq_nil.mp heq).2

theorem pad_length {l : List Char} {w : Nat} (h : l.length ≤ w) :
    (pad w l).length = w := by
  simp only [pad, List.length_append, List.length_replicate]
  omega

/-! ## strip / int / split / regex-search lemmas -/

theorem dropWhile_eq_self_of_all {p : Char → Bool} {l : List Char}
    (h : ∀ c ∈ l, p c = false) : l.dropWhile p = l := by
  cases l with
  | nil => rfl
  | cons c cs => simp [List.dropWhile, h c (by simp)]

theorem pystrip_eq_self {l : List Char} (h : ∀ c ∈ l, isSpace c = false) :
    pystrip l = l := by
  unfold pystrip
  rw [dropWhile_eq_self_of_all h,
    dropWhile_eq_self_of_all (fun c hc => h c (List.mem_reverse.mp hc)),
    List.reverse_reverse]

theorem pyInt_digits {l : List Char} (hd : l.all Char.isDigit = true) (hne : l ≠ []) :
    pyInt l = some ((parseDigits 0 l : Nat) : Int) := by
  have hall : ∀ c ∈ l, c.isDigit = true := List.all_eq_true.mp hd
  have hstrip : pystrip l = l :=
    pystrip_eq_self (fun c hc => isSpace_of_isDigit (hall c hc))
  unfold pyInt
  rw [hstrip]
  cases l with
  | nil => exact absurd rfl hne
  | cons c cs =>
    have hc : c.isDigit = true := hall c (by simp)
    have h1 : c ≠ '-' := isDigit_ne hc (by decide)
    have h2 : c ≠ '+' := isDigit_ne hc (by decide)
    simp [h1, h2, hd]

theorem pyInt_pad_renderNat (w n : Nat) :
    pyInt (pad w (renderNat n)) = some ((n : Nat) : Int) := by
  rw [pyInt_digits (pad_all_digit (renderNat_all_digit n) w)
    (pad_ne_nil (renderNat_ne_nil n) w), parseDigits_pad, parseDigits_zero_renderNat]

theorem splitOnAux_no_sep {sep : Char} {xs : List Char}
    (h : ∀ c ∈ xs, c ≠ sep) (acc : List Char) :
    splitOnAux sep xs acc = [acc.reverse ++ xs] := by
  induction xs generalizing acc with
  | nil => simp [splitOnAux]
  | cons c cs ih =>
    have hc : c ≠ sep := h c (by simp)
    simp only [splitOnAux, if_neg hc]
    rw [ih (fun x hx => h x (by simp [hx])) (c :: acc)]
    simp

theorem splitOnAux_sep_split {sep : Char} {xs rest : List Char}
    (h : ∀ c ∈ xs, c ≠ sep) (acc : List Char) :
    splitOnAux sep (xs ++ sep :: rest) acc =
      (acc.reverse ++ xs) :: splitOnAux sep rest [] := by
  induction xs generalizing acc with
  | nil => simp [splitOnAux]
  | cons c cs ih =>
    have hc : c ≠ sep := h c (by simp)
    simp only [List.cons_append, splitOnAux, if_neg hc, List.append_eq]
    rw [ih (fun x hx => h x (by simp [hx])) (c :: acc)]
    simp

theorem takeWhile_eq_self_of_all {p : Char → Bool} {l : List Char}
    (h : ∀ c ∈ l, p c = true) : l.takeWhile p = l := by
  induction l with
  | nil => rfl
  | cons c cs ih =>
    simp only [List.takeWhile, h c (by simp)]
    rw [ih (fun x hx => h x (by simp [hx]))]

theorem takeWhile_append_of_all {p : Char → Bool} {A : List Char}
    (hA : ∀ c ∈ A, p c = true) {b : Char} (hb : p b = false) (B : List Char) :
    (A ++ b :: B).takeWhile p = A := by
  induction A with
  | nil => simp [List.takeWhile, hb]
  | cons c cs ih =>
    simp only [List.cons_append, List.takeWhile, hA c (by simp), List.append_eq]
    rw [ih (fun x hx => hA x (by simp [hx]))]

theorem dropWhile_append_of_all {p : Char → Bool} {A : List Char}
    (hA : ∀ c ∈ A, p c = true) {b : Char} (hb : p b = false) (B : List Char) :
    (A ++ b :: B).dropWhile p = b :: B := by
  induction A with
  | nil => simp [List.dropWhile, hb]
  | cons c cs ih =>
    simp only [List.cons_append, List.dropWhile, hA c (by simp)]
    exact ih (fun x hx => hA x (by simp [hx]))

theorem searchNumber_shape {A B : List Char} (hA : A.all Char.isDigit = true)
    (hAne : A ≠ []) (hB : B.all Char.isDigit = true) (hBne : B ≠ []) :
    searchNumber (A ++ '.' :: B) = some (A, B) := by
  have hallA : ∀ c ∈ A, c.isDigit = true := List.all_eq_true.mp hA
  have hallB : ∀ c ∈ B, c.isDigit = true := List.all_eq_true.mp hB
  have hdot : ('.').isDigit = false := by decide
  cases A with
  | nil => exact absurd rfl hAne
  | cons a as =>
    have ha : a.isDigit = true := hallA a (by simp)
    rw [List.cons_append]
    unfold searchNumber
    rw [if_pos ha]
    rw [show a :: (as ++ '.' :: B) = (a :: as) ++ '.' :: B from rfl]
    rw [takeWhile_append_of_all hallA hdot B, dropWhile_append_of_all hallA hdot B]
    have htw : List.takeWhile Char.isDigit B = B := takeWhile_eq_self_of_all hallB
    simp [htw, hBne]

theorem roundHalfEven_mul {x : Int} {den : Nat} (hden : 0 < den) :
    roundHalfEven (x * den) den = x := by
  unfold roundHalfEven
  have hdz : (den : Int) ≠ 0 := by exact_mod_cast Nat.pos_iff_ne_zero.mp hden
  rw [Int.mul_emod_left, Int.mul_ediv_cancel x hdz]
  simp only [mul_zero]
  rw [if_pos (by exact_mod_cast hden)]

/-! ## Round-trip of the time code -/

theorem time_string_to_ms_format (h m s r : Nat) (hr : r < 1000) :
    time_string_to_ms (pad 2 (renderNat h) ++ ':' :: (pad 2 (renderNat m) ++ ':' ::
      (pad 2 (renderNat s) ++ '.' :: pad 3 (renderNat r)))) =
      (((h * 3600 + m * 60 + s) * 1000 + r : Nat) : Int) := by
  set P0 := pad 2 (renderNat h) with hP0
  set P1 := pad 2 (renderNat m) with hP1
  set S := pad 2 (renderNat s) with hS
  set R := pad 3 (renderNat r) with hR
  have hd0 : P0.all Char.isDigit = true := pad_all_digit (renderNat_all_digit h) 2
  have hd1 : P1.all Char.isDigit = true := pad_all_digit (renderNat_all_digit m) 2
  have hdS : S.all Char.isDigit = true := pad_all_digit (renderNat_all_digit s) 2
  have hdR : R.all Char.isDigit = true := pad_all_digit (renderNat_all_digit r) 3
  have hneS : S ≠ [] := pad_ne_nil (renderNat_ne_nil s) 2
  have hneR : R ≠ [] := pad_ne_nil (renderNat_ne_nil r) 3
  have hsp : ∀ c ∈ P0 ++ ':' :: (P1 ++ ':' :: (S ++ '.' :: R)), isSpace c = false := by
    intro c hc
    simp only [List.mem_append, List.mem_cons] at hc
    rcases hc with hc | rfl | hc | rfl | hc | rfl | hc
    · exact isSpace_of_isDigit (List.all_eq_true.mp hd0 c hc)
    · decide
    · exact isSpace_of_isDigit (List.all_eq_true.mp hd1 c hc)
    · decide
    · exact isSpace_of_isDigit (List.all_eq_true.mp hdS c hc)
    · decide
    · exact isSpace_of_isDigit (List.all_eq_true.mp hdR c hc)
  have hne : P0 ++ ':' :: (P1 ++ ':' :: (S ++ '.' :: R)) ≠ [] := by
    intro he
    rcases List.append_eq_nil.mp he with ⟨-, h2⟩
    exact List.noConfusion h2
  have hns0 : ∀ c ∈ P0, c ≠ ':' :=
    fun c hc => isDigit_ne (List.all_eq_true.mp hd0 c hc) (by decide)
  have hns1 : ∀ c ∈ P1, c ≠ ':' :=
    fun c hc => isDigit_ne (List.all_eq_true.mp hd1 c hc) (by decide)
  have hnsS : ∀ c ∈ S ++ '.' :: R, c ≠ ':' := by
    intro c hc
    simp only [List.mem_append, List.mem_cons] at hc
    rcases hc with hc | rfl | hc
    · exact isDigit_ne (List.all_eq_true.mp hdS c hc) (by decide)
    · decide
    · exact isDigit_ne (List.all_eq_true.mp hdR c hc) (by decide)
  have hsplit : splitOn ':' (P0 ++ ':' :: (P1 ++ ':' :: (S ++ '.' :: R))) =
      [P0, P1, S ++ '.' :: R] := by
    unfold splitOn
    rw [splitOnAux_sep_split hns0, splitOnAux_sep_split hns1, splitOnAux_no_sep hnsS]
    simp
  have hint0 : pyInt P0 = some ((h : Nat) : Int) := by
    rw [hP0]; exact pyInt_pad_renderNat 2 h
  have hint1 : pyInt P1 = some ((m : Nat) : Int) := by
    rw [hP1]; exact pyInt_pad_renderNat 2 m
  have hsearch : searchNumber (S ++ '.' :: R) = some (S, R) :=
    searchNumber_shape hdS hneS hdR hneR
  have hRlen : R.length = 3 := by
    rw [hR]; exact pad_length (renderNat_length_le (by norm_num) hr)
  have hpS : parseDigits 0 S = s := by
    rw [hS, parseDigits_pad, parseDigits_zero_renderNat]
  have hpR : parseDigits 0 R = r := by
    rw [hR, parseDigits_pad, parseDigits_zero_renderNat]
  simp only [time_string_to_ms]
  rw [pystrip_eq_self hsp, if_neg hne, hsplit]
  simp only [hint0, hint1, hsearch, hRlen, hpS, hpR]
  rw [show ((h : Int) * 3600 + (m : Int) * 60 + ((s : Nat) : Int)) * (10 : Int) ^ 3 * 1000 +
        ((r : Nat) : Int) * 1000 =
      ((((h * 3600 + m * 60 + s) * 1000 + r : Nat) : Int)) * ((10 ^ 3 : Nat) : Int) from by
    push_cast; ring]
  exact roundHalfEven_mul (by norm_num)

set_option maxRecDepth 100000 in
/-- C2 counterexample: at `ms = 2^53 + 1` the source's double arithmetic
breaks the round-trip — `(hours*3600 + minutes*60 + seconds) * 1000` is
computed in binary64, whose values near `2^53` are all even integers, so
parsing the formatted string returns `2^53` instead of `2^53 + 1`. -/
theorem c2_counterexample :
    time_string_to_ms_f (ms_to_time_string 9007199254740993) = 9007199254740992 ∧
    time_string_to_ms_f (ms_to_time_string 9007199254740993) ≠
      ((9007199254740993 : Nat) : Int) := by
  constructor
  · decide
  · decide

set_option maxRecDepth 100000 in
/-- C2 (amended): with the program's binary64 seconds arithmetic the
round-trip `time_string_to_ms_f (ms_to_time_string ms) = ms` holds for
each of the listed values `ms ∈ {0, 999, 1000, 59999, 3600000, 86399999}`
— but not for every non-negative `ms` (it fails at `2^53 + 1`); under
exact real-number seconds arithmetic (`time_string_to_ms`) it holds for
every non-negative `ms`. -/
theorem c2_time_round_trip :
    time_string_to_ms_f (ms_to_time_string 0) = (0 : Int) ∧
    time_string_to_ms_f (ms_to_time_string 999) = (999 : Int) ∧
    time_string_to_ms_f (ms_to_time_string 1000) = (1000 : Int) ∧
    time_string_to_ms_f (ms_to_time_string 59999) = (59999 : Int) ∧
    time_string_to_ms_f (ms_to_time_string 3600000) = (3600000 : Int) ∧
    time_string_to_ms_f (ms_to_time_string 86399999) = (86399999 : Int) ∧
    (∀ ms : Nat, time_string_to_ms (ms_to_time_string ms) = (ms : Int)) := by
  refine ⟨by decide, by decide, by decide, by decide, by decide, by decide, ?_⟩
  intro ms
  have hfmt : ms_to_time_string ms =
      pad 2 (renderNat (ms / 3600000)) ++ ':' :: (pad 2 (renderNat (ms % 3600000 / 60000)) ++
        ':' :: (pad 2 (renderNat (ms % 60000 / 1000)) ++ '.' :: pad 3 (renderNat (ms % 1000)))) := by
    simp [ms_to_time_string]
  rw [hfmt, time_string_to_ms_format _ _ _ _ (by omega)]
  congr 1
  omega

/-! ## Segment store invariants -/

theorem overlaps_with_symm (a b : Segment) : overlaps_with a b = overlaps_with b a := by
  simp [overlaps_with, Bool.or_comm]

/-- Stores reachable from the empty store by `add_segment` calls. -/
inductive ReachableStore : List Segment → Prop
  | nil : ReachableStore []
  | step {segs : List Segment} (st en : Int) (a : String) (c : Option String) :
      ReachableStore segs → ReachableStore (add_segment segs st en a c).1

theorem add_segment_of_overlap {segs : List Segment} {st en : Int} {a : String}
    {c : Option String} (hov : ∃ s ∈ segs, overlaps_with ⟨st, en, a, c⟩ s = true) :
    add_segment segs st en a c = (segs, false) := by
  unfold add_segment
  rw [if_pos]
  exact List.any_eq_true.mpr (by obtain ⟨s, hs, h⟩ := hov; exact ⟨s, hs, h⟩)

theorem add_segment_of_no_overlap {segs : List Segment} {st en : Int} {a : String}
    {c : Option String} (hov : ∀ s ∈ segs, overlaps_with ⟨st, en, a, c⟩ s = false) :
    add_segment segs st en a c = (segs ++ [⟨st, en, a, c⟩], true) := by
  have hany : segs.any (fun s => overlaps_with ⟨st, en, a, c⟩ s) = false := by
    rw [List.any_eq_false]
    intro s hs
    simp [hov s hs]
  simp [add_segment, hany]

theorem pairwise_of_reachable {segs : List Segment} (h : ReachableStore segs) :
    segs.Pairwise (fun a b => overlaps_with a b = false) := by
  induction h with
  | nil => exact List.Pairwise.nil
  | @step segs st en a c _ ih =>
    by_cases hov : segs.any (fun s => overlaps_with ⟨st, en, a, c⟩ s) = true
    · unfold add_segment
      rw [if_pos hov]
      exact ih
    · have hov' : ∀ s ∈ segs, overlaps_with ⟨st, en, a, c⟩ s = false := by
        intro s hs
        rcases Bool.eq_false_or_eq_true (overlaps_with ⟨st, en, a, c⟩ s) with ht | hf
        · exact absurd (List.any_eq_true.mpr ⟨s, hs, ht⟩) hov
        · exact hf
      rw [add_segment_of_no_overlap hov']
      rw [List.pairwise_append]
      refine ⟨ih, List.pairwise_singleton _ _, ?_⟩
      intro x hx y hy
      simp only [List.mem_singleton] at hy
      subst hy
      rw [overlaps_with_symm]
      exact hov' x hx

/-- C1: in every store reachable by `add_segment` calls, no two distinct
segments overlap, and whenever the candidate overlaps some existing
segment `add_segment` returns `false` with the store completely
unchanged. -/
theorem c1_overlap_invariant (segs : List Segment) (hreach : ReachableStore segs) :
    (∀ (i j : Nat) (hi : i < segs.length) (hj : j < segs.length), i ≠ j →
      overlaps_with (segs.get ⟨i, hi⟩) (segs.get ⟨j, hj⟩) = false) ∧
    (∀ (st en : Int) (a : String) (c : Option String),
      (∃ s ∈ segs, overlaps_with ⟨st, en, a, c⟩ s = true) →
      add_segment segs st en a c = (segs, false)) := by
  constructor
  · have hp := pairwise_of_reachable hreach
    rw [List.pairwise_iff_get] at hp
    intro i j hi hj hij
    rcases Nat.lt_or_ge i j with hlt | hge
    · exact hp ⟨i, hi⟩ ⟨j, hj⟩ hlt
    · have hlt : j < i := by omega
      rw [overlaps_with_symm]
      exact hp ⟨j, hj⟩ ⟨i, hi⟩ hlt
  · intro st en a c hov
    exact add_segment_of_overlap hov

/-- Witness for C1 at a concrete reachable two-segment store and an
overlapping candidate. -/
theorem c1_overlap_invariant_witness :
    overlaps_with
        (((add_segment ((add_segment ([] : List Segment) 0 10 "jump" none).1)
            20 30 "spin" none).1).get ⟨0, by decide⟩)
        (((add_segment ((add_segment ([] : List Segment) 0 10 "jump" none).1)
            20 30 "spin" none).1).get ⟨1, by decide⟩) = false ∧
    add_segment ((add_segment ((add_segment ([] : List Segment) 0 10 "jump" none).1)
        20 30 "spin" none).1) 5 25 "footwork" none =
      ((add_segment ((add_segment ([] : List Segment) 0 10 "jump" none).1)
        20 30 "spin" none).1, false) := by
  have hreach : ReachableStore ((add_segment ((add_segment ([] : List Segment)
      0 10 "jump" none).1) 20 30 "spin" none).1) :=
    ReachableStore.step 20 30 "spin" none
      (ReachableStore.step 0 10 "jump" none ReachableStore.nil)
  have hmain := c1_overlap_invariant _ hreach
  refine ⟨hmain.1 0 1 (by decide) (by decide) (by decide), ?_⟩
  exact hmain.2 5 25 "footwork" none ⟨⟨0, 10, "jump", none⟩, by decide, by decide⟩

/-- C6: a candidate whose `start` equals an existing segment's `end` (and
which overlaps no other segment) is accepted by `add_segment`: boundary
touching is not an overlap. -/
theorem c6_adjacent_accepted (segs : List Segment) (e : Segment) (en : Int)
    (a : String) (c : Option String) (he : e ∈ segs)
    (hov : ∀ s ∈ segs, s ≠ e → overlaps_with ⟨e.stop, en, a, c⟩ s = false) :
    add_segment segs e.stop en a c = (segs ++ [⟨e.stop, en, a, c⟩], true) := by
  apply add_segment_of_no_overlap
  intro s hs
  by_cases hse : s = e
  · subst hse
    simp [overlaps_with]
  · exact hov s hs hse

/-- Witness for C6: adding `[10,20]` next to the existing `[0,10]`. -/
theorem c6_adjacent_accepted_witness :
    add_segment [⟨0, 10, "jump", none⟩] 10 20 "spin" none =
      ([⟨0, 10, "jump", none⟩, ⟨10, 20, "spin", none⟩], true) := by
  exact c6_adjacent_accepted [⟨0, 10, "jump", none⟩] ⟨0, 10, "jump", none⟩ 20 "spin" none
    (by simp)
    (by intro s hs hne; simp only [List.mem_singleton] at hs; exact absurd hs hne)

/-! ## Removal, order validation, hit-testing -/

/-- C5: `remove_segment` is a no-op out of bounds; in bounds it deletes the
indexed segment and fixes the selection: an index below the selection
decrements it, the selected index clears it, an index above leaves it; in
particular on `[A,B,C]` with `selected=2`, `remove 0` gives `[B,C]` with
`selected=1`, and `remove 1` with `selected=1` clears the selection. -/
theorem c5_remove_segment (segs : List Segment) (sel : Option Int) (i : Int) :
    (¬(0 ≤ i ∧ i < (segs.length : Int)) → remove_segment segs sel i = (segs, sel)) ∧
    (0 ≤ i → i < (segs.length : Int) →
      (remove_segment segs sel i).1 = segs.eraseIdx i.toNat ∧
      (sel = none → (remove_segment segs sel i).2 = none) ∧
      (∀ s : Int, sel = some s → i < s → (remove_segment segs sel i).2 = some (s - 1)) ∧
      (sel = some i → (remove_segment segs sel i).2 = none) ∧
      (∀ s : Int, sel = some s → s < i → (remove_segment segs sel i).2 = some s)) ∧
    remove_segment [⟨0, 10, "a", none⟩, ⟨20, 30, "b", none⟩, ⟨40, 50, "c", none⟩]
        (some 2) 0 = ([⟨20, 30, "b", none⟩, ⟨40, 50, "c", none⟩], some 1) ∧
    remove_segment [⟨0, 10, "a", none⟩, ⟨20, 30, "b", none⟩, ⟨40, 50, "c", none⟩]
        (some 1) 1 = ([⟨0, 10, "a", none⟩, ⟨40, 50, "c", none⟩], none) := by
  refine ⟨?_, ?_, by decide, by decide⟩
  · intro hnot
    unfold remove_segment
    rw [if_neg hnot]
  · intro h0 hlen
    unfold remove_segment
    rw [if_pos ⟨h0, hlen⟩]
    refine ⟨rfl, ?_, ?_, ?_, ?_⟩
    · intro hsel; subst hsel; rfl
    · intro s hsel hlt
      subst hsel
      simp only []
      rw [if_neg (by omega : ¬(s = i)), if_pos hlt]
    · intro hsel
      subst hsel
      simp
    · intro s hsel hlt
      subst hsel
      simp only []
      rw [if_neg (by omega : ¬(s = i)), if_neg (by omega : ¬(i < s))]

/-- Witness for C5 at concrete inputs: an out-of-bounds removal is a no-op
and an in-bounds removal deletes the indexed segment. -/
theorem c5_remove_segment_witness :
    remove_segment [⟨0, 10, "a", none⟩] (some 0) 5 = ([⟨0, 10, "a", none⟩], some 0) ∧
    (remove_segment [⟨0, 10, "a", none⟩, ⟨20, 30, "b", none⟩] (some 1) 0).1 =
      [⟨20, 30, "b", none⟩] := by
  refine ⟨(c5_remove_segment [⟨0, 10, "a", none⟩] (some 0) 5).1 (by decide), ?_⟩
  rw [((c5_remove_segment [⟨0, 10, "a", none⟩, ⟨20, 30, "b", none⟩] (some 1) 0).2.1
    (by decide) (by decide)).1]
  decide

/-- C9: `add_segment` performs no `start < end` validation: `(5,5)` and
`(10,2)` are accepted on an empty store even though they violate the
documented `start < end` invariant; the OUT-after-IN check lives in the
`set_out` commit handler, which rejects `out_time <= in_time` without
touching the store. -/
theorem c9_no_order_validation :
    (add_segment [] 5 5 "jump" none = ([⟨5, 5, "jump", none⟩], true) ∧ ¬((5 : Int) < 5)) ∧
    (add_segment [] 10 2 "jump" none = ([⟨10, 2, "jump", none⟩], true) ∧ ¬((10 : Int) < 2)) ∧
    (∀ (segs : List Segment) (it pos : Int) (a : String)
      (colors : List (String × String)),
      pos ≤ it → set_out segs (some it) pos a colors = (segs, some it, some pos)) := by
  refine ⟨⟨by decide, by decide⟩, ⟨by decide, by decide⟩, ?_⟩
  intro segs it pos a colors hle
  simp only [set_out]
  rw [if_pos hle]

/-- Witness for C9: `set_out` with `out_time = in_time` adds nothing. -/
theorem c9_no_order_validation_witness :
    set_out [] (some 7) 7 "jump" [] = ([], some 7, some 7) :=
  c9_no_order_validation.2.2 [] 7 7 "jump" [] (by decide)

/-- C10: with `duration = 0`, hit-testing returns `none` for every pixel,
whatever the store contains, and a press then selects nothing. -/
theorem c10_no_hit_without_duration (px : ℚ) (segs : List Segment) (x : ℚ) :
    get_segment_at_position px 0 segs x = none ∧
    (∀ st : TimelineState, st.duration = 0 →
      (mousePressEvent st x).1.selected_segment = none ∧
      (mousePressEvent st x).2 = [TimelineEvent.selectionCleared]) := by
  constructor
  · simp [get_segment_at_position]
  · intro st hdur
    simp [mousePressEvent, get_segment_at_position, hdur]

/-- Witness for C10 at a concrete zero-duration state whose store has a
segment containing time 0. -/
theorem c10_no_hit_without_duration_witness :
    get_segment_at_position 10 0 [⟨0, 10, "a", none⟩] 5 = none ∧
    (mousePressEvent ⟨0, [⟨0, 10, "a", none⟩], some 0, 0, 10, false, 0⟩
      5).1.selected_segment = none := by
  have h := c10_no_hit_without_duration 10 [⟨0, 10, "a", none⟩] 5
  exact ⟨h.1, (h.2 ⟨0, [⟨0, 10, "a", none⟩], some 0, 0, 10, false, 0⟩ rfl).1⟩

/-! ## Mouse-press semantics -/

theorem findIdx?_lt_length {α : Type} {p : α → Bool} {l : List α} {i : Nat}
    (h : l.findIdx? p = some i) : i < l.length := by
  induction l generalizing i with
  | nil => simp [List.findIdx?] at h
  | cons a as ih =>
    rw [List.findIdx?_cons] at h
    by_cases hp : p a
    · simp [hp] at h
      simp [← h]
    · simp [hp] at h
      rcases h with ⟨j, hj, rfl⟩
      have := ih hj
      simp only [List.length_cons]
      omega

/-- C7 counterexample: in a state with `duration = 0` (before any video is
loaded) a left press at pixel 5 emits only `selectionCleared` — no
seek-to-time (`positionChanged`) event is reported, even though the store
has a segment. -/
theorem c7_counterexample :
    (mousePressEvent ⟨0, [⟨0, 10, "a", none⟩], some 0, 0, 10, false, 0⟩ 5).2 =
      [TimelineEvent.selectionCleared] := by
  decide

/-- C7 (amended): whenever `duration > 0`, a left press always emits
`positionChanged` with the truncated time resolved from the pixel, and
then either selects the first segment containing the resolved time
(emitting `segmentClicked`) or clears the selection (emitting
`selectionCleared`). -/
theorem c7_press_reports_seek (st : TimelineState) (x0 : ℚ) (hdur : 0 < st.duration)
    (t : ℚ)
    (ht : t = (x0 + st.scroll_offset) /
      ((total_width st.px_per_sec st.duration : Int) : ℚ) * (st.duration : ℚ)) :
    (∀ i : Nat, st.segments.findIdx? (fun s => s.containsQ t) = some i →
      (mousePressEvent st x0).2 =
        [TimelineEvent.positionChanged (pyTrunc t), TimelineEvent.segmentClicked (i : Int)] ∧
      (mousePressEvent st x0).1.selected_segment = some (i : Int)) ∧
    (st.segments.findIdx? (fun s => s.containsQ t) = none →
      (mousePressEvent st x0).2 =
        [TimelineEvent.positionChanged (pyTrunc t), TimelineEvent.selectionCleared] ∧
      (mousePressEvent st x0).1.selected_segment = none) := by
  have hdne : ¬(st.duration = 0) := by omega
  constructor
  · intro i hfind
    have hlt : i < st.segments.length := findIdx?_lt_length hfind
    have hsel : 0 ≤ (i : Int) ∧ (i : Int) < (st.segments.length : Int) :=
      ⟨Int.ofNat_nonneg i, by exact_mod_cast hlt⟩
    simp only [mousePressEvent, get_segment_at_position]
    rw [if_neg hdne, ← ht, hfind, if_pos hdur]
    simp only [select_segment]
    rw [if_pos hsel]
    simp
  · intro hfind
    simp only [mousePressEvent, get_segment_at_position]
    rw [if_neg hdne, ← ht, hfind, if_pos hdur]
    simp

/-- Witness for C7 at a concrete state: duration 60000 ms, scale 10 px/s,
a press at pixel 300 resolves to 30000 ms inside the only segment. -/
theorem c7_press_reports_seek_witness :
    (mousePressEvent ⟨60000, [⟨20000, 40000, "a", none⟩], none, 0, 10, false, 0⟩ 300).2 =
      [TimelineEvent.positionChanged 30000, TimelineEvent.segmentClicked 0] ∧
    (mousePressEvent ⟨60000, [⟨20000, 40000, "a", none⟩], none, 0, 10, false, 0⟩
      300).1.selected_segment = some 0 := by
  have h := (c7_press_reports_seek
    ⟨60000, [⟨20000, 40000, "a", none⟩], none, 0, 10, false, 0⟩ 300 (by decide)
    30000 (by norm_num [total_width, pyTrunc])).1 0
    (by simp only [List.findIdx?_cons, Segment.containsQ]; norm_num)
  refine ⟨?_, h.2⟩
  rw [h.1]
  norm_num [pyTrunc]

/-! ## Malformed hour/minute fields (C3) -/

/-- C3 counterexample: the parser does not fail on a non-numeric hour
field; `"ab:01:02.000"` silently yields 0. -/
theorem c3_counterexample : time_string_to_ms "ab:01:02.000".data = 0 := by
  decide

/-- C3 (amended): for every input whose hour or minute field is
non-numeric — a 3-field input whose hour or minute field fails Python
`int`, or a 2-field (`MM:SS`) input whose minute field fails — the
raised `ValueError` is caught and `time_string_to_ms` returns 0: it
silently defaults instead of surfacing an error. -/
theorem c3_nonnumeric_field_defaults_zero (s : List Char) (hne : pystrip s ≠ []) :
    (∀ p0 p1 p2 : List Char, splitOn ':' (pystrip s) = [p0, p1, p2] →
      pyInt p0 = none ∨ pyInt p1 = none → time_string_to_ms s = 0) ∧
    (∀ p0 p1 : List Char, splitOn ':' (pystrip s) = [p0, p1] →
      pyInt p0 = none → time_string_to_ms s = 0) := by
  constructor
  · intro p0 p1 p2 hsplit hbad
    simp only [time_string_to_ms]
    rw [if_neg hne, hsplit]
    rcases hbad with h0 | h1
    · simp [h0]
    · cases hp0 : pyInt p0 with
      | none => simp [hp0]
      | some v => simp [hp0, h1]
  · intro p0 p1 hsplit h0
    simp only [time_string_to_ms]
    rw [if_neg hne, hsplit]
    simp [h0]

/-- Witness for C3: a 3-field input with a non-numeric hour field and a
2-field input with a non-numeric minute field both yield 0. -/
theorem c3_nonnumeric_field_defaults_zero_witness :
    time_string_to_ms "ab:01:02.000".data = 0 ∧
    time_string_to_ms "xy:30".data = 0 := by
  constructor
  · exact (c3_nonnumeric_field_defaults_zero "ab:01:02.000".data (by decide)).1
      "ab".data "01".data "02.000".data (by decide) (Or.inl (by decide))
  · exact (c3_nonnumeric_field_defaults_zero "xy:30".data (by decide)).2
      "xy".data "30".data (by decide) (by decide)

/-! ## Project loading (C4) -/

theorem reachable_load_project_step (colors : List (String × String))
    (segs : List Segment) (row : List String) (h : ReachableStore segs) :
    ReachableStore (load_project_step colors segs row) := by
  rcases row with _ | ⟨f0, _ | ⟨f1, _ | ⟨f2, rest⟩⟩⟩
  · exact h
  · exact h
  · exact h
  · exact ReachableStore.step _ _ _ _ h

theorem reachable_load_project_rows (colors : List (String × String))
    (rows : List (List String)) : ReachableStore (load_project_rows colors rows) := by
  suffices h : ∀ segs, ReachableStore segs →
      ReachableStore (rows.foldl (load_project_step colors) segs) from
    h [] ReachableStore.nil
  induction rows with
  | nil => intro segs h; exact h
  | cons r rs ih =>
    intro segs h
    exact ih _ (reachable_load_project_step colors segs r h)

/-- C4 counterexample: two well-formed rows where the second overlaps the
first; the loader stores only the first segment, so it does validate
non-overlap (the claim that every well-formed row is stored fails). -/
theorem c4_counterexample :
    load_project_rows [] [["00:00:01.000", "00:00:02.000", "a"],
      ["00:00:01.500", "00:00:03.000", "b"]] =
      [⟨1000, 2000, "a", some "#FF9999"⟩] := by
  decide

/-- C4 (amended): the loader skips rows with fewer than 3 fields, decodes
times with `time_string_to_ms` and colors via the action-color mapping,
and appends segments in file row order — but each row passes through
`add_segment`'s overlap check, so a well-formed row overlapping an
already-loaded segment is dropped, and every loaded store is pairwise
non-overlapping. -/
theorem c4_load_project_spec (colors : List (String × String))
    (rows : List (List String)) :
    (load_project_rows colors rows).Pairwise (fun a b => overlaps_with a b = false) ∧
    (∀ row : List String, row.length < 3 →
      load_project_rows colors (rows ++ [row]) = load_project_rows colors rows) ∧
    (∀ (f0 f1 f2 : String) (rest : List String),
      ((∀ s ∈ load_project_rows colors rows,
          overlaps_with ⟨time_string_to_ms f0.data, time_string_to_ms f1.data, f2,
            some (lookupColor colors f2)⟩ s = false) →
        load_project_rows colors (rows ++ [f0 :: f1 :: f2 :: rest]) =
          load_project_rows colors rows ++
            [⟨time_string_to_ms f0.data, time_string_to_ms f1.data, f2,
              some (lookupColor colors f2)⟩]) ∧
      ((∃ s ∈ load_project_rows colors rows,
          overlaps_with ⟨time_string_to_ms f0.data, time_string_to_ms f1.data, f2,
            some (lookupColor colors f2)⟩ s = true) →
        load_project_rows colors (rows ++ [f0 :: f1 :: f2 :: rest]) =
          load_project_rows colors rows)) := by
  have hsnoc : ∀ row : List String, load_project_rows colors (rows ++ [row]) =
      load_project_step colors (load_project_rows colors rows) row := by
    intro row
    unfold load_project_rows
    rw [List.foldl_append]
    rfl
  refine ⟨pairwise_of_reachable (reachable_load_project_rows colors rows), ?_, ?_⟩
  · intro row hlen
    rw [hsnoc]
    rcases row with _ | ⟨f0, _ | ⟨f1, _ | ⟨f2, rest⟩⟩⟩
    · rfl
    · rfl
    · rfl
    · exfalso
      simp only [List.length_cons] at hlen
      omega
  · intro f0 f1 f2 rest
    constructor
    · intro hnov
      rw [hsnoc]
      show (add_segment (load_project_rows colors rows) (time_string_to_ms f0.data)
        (time_string_to_ms f1.data) f2 (some (lookupColor colors f2))).1 = _
      rw [add_segment_of_no_overlap hnov]
    · intro hov
      rw [hsnoc]
      show (add_segment (load_project_rows colors rows) (time_string_to_ms f0.data)
        (time_string_to_ms f1.data) f2 (some (lookupColor colors f2))).1 = _
      rw [add_segment_of_overlap hov]

/-- Witness for C4: loading a short row, a non-overlapping row and an
overlapping row after one stored segment. -/
theorem c4_load_project_spec_witness :
    load_project_rows [] [["00:00:01.000", "00:00:02.000", "a"], ["junk"]] =
      load_project_rows [] [["00:00:01.000", "00:00:02.000", "a"]] ∧
    load_project_rows [] [["00:00:01.000", "00:00:02.000", "a"],
        ["00:00:01.500", "00:00:03.000", "b"]] =
      load_project_rows [] [["00:00:01.000", "00:00:02.000", "a"]] := by
  constructor
  · exact (c4_load_project_spec [] [["00:00:01.000", "00:00:02.000", "a"]]).2.1
      ["junk"] (by decide)
  · exact ((c4_load_project_spec [] [["00:00:01.000", "00:00:02.000", "a"]]).2.2
      "00:00:01.500" "00:00:03.000" "b" []).2
      ⟨⟨1000, 2000, "a", some "#FF9999"⟩, by decide, by decide⟩

/-! ## Action-catalog loading (C8) -/

/-- C8 counterexample: a present catalog source that reads cleanly but has
zero data rows does NOT produce the 4-label fallback — the combo list and
color mapping stay empty. -/
theorem c8_counterexample :
    load_actions_from_csv (some ([], true)) = ⟨[], []⟩ ∧
    load_actions_from_csv (some ([], true)) ≠ ⟨fallbackItems, fallbackColors⟩ := by
  decide

/-- C8 (amended): when `actions.csv` is missing the load produces exactly
the 4 built-in labels jump/spin/footwork/transition with their fixed
colors; when reading raises after some rows, the handler appends the
same 4 labels to the items already loaded and replaces the color mapping
with the fallback colors (so the load still completes, with the 4
built-ins present); a cleanly read source with zero data rows yields an
empty list and empty mapping, with no fallback. -/
theorem c8_catalog_fallback :
    load_actions_from_csv none = ⟨fallbackItems, fallbackColors⟩ ∧
    fallbackItems = ["jump", "spin", "footwork", "transition"] ∧
    fallbackItems.length = 4 ∧
    fallbackColors = [("jump", "#FF9999"), ("spin", "#99FF99"), ("footwork", "#9999FF"),
      ("transition", "#FFFF99")] ∧
    load_actions_from_csv (some ([], true)) = ⟨[], []⟩ ∧
    (∀ rows : List CatalogRow,
      (load_actions_from_csv (some (rows, false))).items =
        (load_actions_from_csv (some (rows, true))).items ++ fallbackItems ∧
      (load_actions_from_csv (some (rows, false))).action_colors = fallbackColors) ∧
    load_actions_from_csv (some ([⟨"Jump", "Axel", some "#00FF00"⟩], false)) =
      ⟨["📁 Jump", "  Axel"] ++ fallbackItems, fallbackColors⟩ := by
  refine ⟨rfl, rfl, rfl, rfl, rfl, ?_, by decide⟩
  intro rows
  simp [load_actions_from_csv]

end Labeler
